import Mathlib

set_option maxRecDepth 2200

/-
Verification of the measurement-aggregation pipeline of
src/CPrimeFinder/benchmark_pprimes.py.

Python floats are modelled as exact rationals (ℚ), with the IEEE NaN
sentinel modelled as `Option ℚ` (`none` = NaN / missing).  Machine text is
modelled as `List Char` / `String`.  The external workload invocation
(subprocess) is out of scope per the spec; the sweep is parameterised by an
oracle `ℕ → ℕ → ℕ → Option (ℚ × ℕ)` giving, for `(n, t, trial index)`, the
parsed `(elapsed_ms, total_primes)` of a successful invocation, or `none`
when that invocation raises.
-/

/-! Character classes used by the regular expressions `ELAPSED_RE` and
`TOTAL_RE` (Python `\s`, `[0-9]`, `[0-9.]`, and `re.I` lower-casing,
restricted to ASCII). -/

def isWs (c : Char) : Bool :=
  decide (c.toNat = 32 ∨ c.toNat = 9 ∨ c.toNat = 10 ∨ c.toNat = 13 ∨
          c.toNat = 11 ∨ c.toNat = 12)

def isDig (c : Char) : Bool :=
  decide (48 ≤ c.toNat ∧ c.toNat ≤ 57)

def isDigDot (c : Char) : Bool :=
  isDig c || decide (c = '.')

/-- ASCII lower-casing, as applied by `re.I` to the patterns at hand. -/
def lc (c : Char) : Char :=
  if 65 ≤ c.toNat ∧ c.toNat ≤ 90 then Char.ofNat (c.toNat + 32) else c

/-- Consume the literal `pat` (case-insensitively) from the front of the
text; return the remaining text on success. -/
def ciLit : List Char → List Char → Option (List Char)
  | [], s => some s
  | _ :: _, [] => none
  | p :: ps, c :: cs => if lc p = lc c then ciLit ps cs else none

/-- Case-insensitive equality of two character lists. -/
def ciEqL : List Char → List Char → Bool
  | [], [] => true
  | p :: ps, c :: cs => (lc p == lc c) && ciEqL ps cs
  | _, _ => false

def seqLit : List Char := "sequential".data

def thrLit : List Char := "threaded".data

def elapsedLit : List Char := "elapsed:".data

def msLit : List Char := "ms".data

def totalLit : List Char := "total primes:".data

/-- The `(?:sequential|threaded)` alternation of `ELAPSED_RE`. -/
def afterTag (s : List Char) : Option (List Char) :=
  match ciLit seqLit s with
  | some r => some r
  | none => ciLit thrLit s

/-- Consume one expected (case-sensitive) character. -/
def expectChar (c : Char) (s : List Char) : Option (List Char) :=
  match s with
  | [] => none
  | x :: rest => if x = c then some rest else none

/-- Consume `\s+`: at least one whitespace character, greedily. -/
def expectWs1 (s : List Char) : Option (List Char) :=
  match s with
  | [] => none
  | c :: rest => if isWs c then some (rest.dropWhile isWs) else none

/-- Attempt to match `ELAPSED_RE`
(`\[(?:sequential|threaded)\]\s+elapsed:\s*([0-9.]+)\s*ms`, `re.I`)
at the start of `s`; return the capture group on success.  The greedy
character-class runs of the regex never need backtracking here because each
run's class is disjoint from the first character of what follows it. -/
def matchElapsedAt (s : List Char) : Option (List Char) :=
  (expectChar '[' s).bind fun s1 =>
  (afterTag s1).bind fun s2 =>
  (expectChar ']' s2).bind fun s3 =>
  (expectWs1 s3).bind fun s4 =>
  (ciLit elapsedLit s4).bind fun s5 =>
  let s6 := s5.dropWhile isWs
  let g := s6.takeWhile isDigDot
  if g.isEmpty then none
  else ((ciLit msLit ((s6.dropWhile isDigDot).dropWhile isWs)).map (fun _ => g))

/-- Attempt to match `TOTAL_RE` (`total primes:\s*([0-9]+)`, `re.I`) at the
start of `s`; return the capture group on success. -/
def matchTotalAt (s : List Char) : Option (List Char) :=
  (ciLit totalLit s).bind fun s1 =>
  let g := (s1.dropWhile isWs).takeWhile isDig
  if g.isEmpty then none else some g

/-- `re.search`: try the matcher at every position, leftmost first. -/
def searchWith (f : List Char → Option (List Char)) : List Char → Option (List Char)
  | [] => f []
  | c :: s =>
    match f (c :: s) with
    | some g => some g
    | none => searchWith f s

def searchElapsed (s : List Char) : Option (List Char) :=
  searchWith matchElapsedAt s

def searchTotal (s : List Char) : Option (List Char) :=
  searchWith matchTotalAt s

/-- Numeric value of a digit string (Python `int` on `[0-9]+`). -/
def digitsVal (l : List Char) : ℕ :=
  l.foldl (fun a c => 10 * a + (c.toNat - 48)) 0

/-- Python `float` applied to a string drawn from `[0-9.]+`: at most one
dot, and at least one digit somewhere; `"5."`, `".5"` are legal, `"."` and
`"1.2.3"` raise `ValueError` (modelled as `none`). -/
def parseFloatQ (l : List Char) : Option ℚ :=
  if l.count '.' = 0 then
    match l with
    | [] => none
    | _ :: _ => some ((digitsVal l : ℕ) : ℚ)
  else if l.count '.' = 1 then
    if (l.takeWhile (fun c => c != '.')).isEmpty &&
        ((l.dropWhile (fun c => c != '.')).drop 1).isEmpty then none
    else some ((digitsVal (l.takeWhile (fun c => c != '.')) : ℚ) +
      (digitsVal ((l.dropWhile (fun c => c != '.')).drop 1) : ℚ) /
        (10 : ℚ) ^ ((l.dropWhile (fun c => c != '.')).drop 1).length)
  else none

/-- Outcome of the parsing stage of `run_once` on captured stdout:
`ok` on success, `parseFail` models the diagnostic-dump-plus-`RuntimeError`
path (carrying the diagnostic file name and its exact content), and
`valueFail` the `ValueError` that `float()` raises on a captured group such
as `"1.2.3"`. -/
inductive RunOutcome where
  | ok (elapsedMs : ℚ) (totalPrimes : ℕ)
  | parseFail (fileName : String) (content : String)
  | valueFail
deriving DecidableEq

/-- `f"pprimes_output_n{n}_t{t}.txt"` — the diagnostic file name is a
function of the `(size, concurrency)` parameters only. -/
def debugName (n t : ℕ) : String :=
  "pprimes_output_n" ++ Nat.repr n ++ "_t" ++ Nat.repr t ++ ".txt"

/-- The parsing stage of `run_once(n, t)` applied to the captured stdout:
search both patterns; if either is absent, write the diagnostic file and
raise; otherwise convert the two capture groups. -/
def runOnceParse (n t : ℕ) (stdout : String) : RunOutcome :=
  match searchElapsed stdout.data, searchTotal stdout.data with
  | some g, some d =>
    match parseFloatQ g with
    | some q => RunOutcome.ok q (digitsVal d)
    | none => RunOutcome.valueFail
  | _, _ => RunOutcome.parseFail (debugName n t) stdout

/-! The sweep (`run_trials` and the data-collection part of `main`).
`o n t i` is the outcome of the `i`-th invocation of `run_once(n, t)`:
`some (elapsed_ms, total_primes)` on success, `none` when it raises. -/

abbrev Oracle := ℕ → ℕ → ℕ → Option (ℚ × ℕ)

/-- One iteration of the `for i in range(trials)` loop of `run_trials`:
once an invocation has raised, the exception propagates (state `none`);
otherwise append the elapsed time and remember the last total. -/
def trialStep (o1 : ℕ → Option (ℚ × ℕ)) (st : Option (List ℚ × Option ℤ)) (i : ℕ) :
    Option (List ℚ × Option ℤ) :=
  match st with
  | none => none
  | some (acc, _) =>
    match o1 i with
    | some pr => some (acc ++ [pr.1], some (pr.2 : ℤ))
    | none => none

/-- `run_trials(n, t, trials)`: returns `(avg_ms, total_primes_from_last,
times_ms_list)`, or `none` when an exception escapes (a failed invocation,
or the `ZeroDivisionError` of `sum([])/0` when `trials = 0`). -/
def run_trials (o : Oracle) (n t trials : ℕ) : Option (ℚ × Option ℤ × List ℚ) :=
  match (List.range trials).foldl (trialStep (o n t)) (some ([], none)) with
  | none => none
  | some (ts, tot) =>
    if ts = [] then none else some (ts.sum / (ts.length : ℚ), tot, ts)

/-- One entry of the `rows` list built in `main` (the per-cell dictionary,
including the `speedup` key added by the second pass).  `none` models the
float `nan` for the averages and a missing value for `total_primes`. -/
structure Row where
  N : ℕ
  threads : ℕ
  trials : ℕ
  avg_ms : Option ℚ
  avg_sec : Option ℚ
  total_primes : Option ℤ
  speedup : Option ℚ
deriving DecidableEq

/-- The row appended for cell `(n, t)`: on failure of the whole
`run_trials` call, `avg_ms = nan`, `total_primes = -1`, and the trials
list recorded in `trials_map` is empty. -/
def mkRow (o : Oracle) (trials n t : ℕ) : Row :=
  { N := n
    threads := t
    trials := trials
    avg_ms := (run_trials o n t trials).map (fun x => x.1)
    avg_sec := (run_trials o n t trials).map (fun x => x.1 / 1000)
    total_primes :=
      match run_trials o n t trials with
      | none => some (-1)
      | some (_, tot, _) => tot
    speedup := none }

/-- `trials_map[(n, t)]`: the per-trial elapsed times recorded for a cell
(empty on failure). -/
def cellTimes (o : Oracle) (trials n t : ℕ) : List ℚ :=
  match run_trials o n t trials with
  | some (_, _, ts) => ts
  | none => []

/-- The `for n in NS: for t in THREADS:` enumeration order. -/
def cellsOf : List ℕ → List ℕ → List (ℕ × ℕ)
  | [], _ => []
  | n :: rest, ts => ts.map (fun t => (n, t)) ++ cellsOf rest ts

/-- The `rows` list right after the collection loop (before the speedup
pass). -/
def rows0 (o : Oracle) (ns threads : List ℕ) (trials : ℕ) : List Row :=
  (cellsOf ns threads).map (fun p => mkRow o trials p.1 p.2)

/-- `trials_map.get((n, t), [])`: only configured cells have a key. -/
def trialsMapGet (o : Oracle) (ns threads : List ℕ) (trials n t : ℕ) : List ℚ :=
  if n ∈ ns ∧ t ∈ threads then cellTimes o trials n t else []

/-- `base_ms_by_n.get(n)`: the first row with this `N` and `threads == 1`,
kept only when its average is not NaN. -/
def baseMs (o : Oracle) (ns threads : List ℕ) (trials n : ℕ) : Option ℚ :=
  match (rows0 o ns threads trials).find? (fun r => r.N == n && r.threads == 1) with
  | some r => r.avg_ms
  | none => none

/-- `r["speedup"] = (base / avg) if (base and avg and avg == avg and
avg > 0) else nan`: Python truthiness makes a zero baseline (and a `None`
one) fall to NaN. -/
def speedupRaw (base avg : Option ℚ) : Option ℚ :=
  match base, avg with
  | some b, some a => if b ≠ 0 ∧ a ≠ 0 ∧ 0 < a then some (b / a) else none
  | some _, none => none
  | none, _ => none

/-- The `rows` list after the speedup pass. -/
def rowsFinal (o : Oracle) (ns threads : List ℕ) (trials : ℕ) : List Row :=
  (rows0 o ns threads trials).map
    (fun r => { r with speedup := speedupRaw (baseMs o ns threads trials r.N) r.avg_ms })

/-- The finished row of one configured cell. -/
def mkRowFinal (o : Oracle) (ns threads : List ℕ) (trials n t : ℕ) : Row :=
  { mkRow o trials n t with
      speedup := speedupRaw (baseMs o ns threads trials n) (mkRow o trials n t).avg_ms }

/-- One line of the raw CSV `pprimes_bench.csv`: per-trial columns are
blank (`none`) past the recorded samples. -/
structure CsvRec where
  N : ℕ
  threads : ℕ
  trials : ℕ
  trialCells : List (Option ℚ)
  avg_ms : Option ℚ
  avg_sec : Option ℚ
  speedup : Option ℚ
  total_primes : Option ℤ
deriving DecidableEq

def toCsvRec (o : Oracle) (ns threads : List ℕ) (trials : ℕ) (r : Row) : CsvRec :=
  { N := r.N
    threads := r.threads
    trials := r.trials
    trialCells :=
      (List.range trials).map (fun i => (trialsMapGet o ns threads trials r.N r.threads).get? i)
    avg_ms := r.avg_ms
    avg_sec := r.avg_sec
    speedup := r.speedup
    total_primes := r.total_primes }

def rawCsvRows (o : Oracle) (ns threads : List ℕ) (trials : ℕ) : List CsvRec :=
  (rowsFinal o ns threads trials).map (toCsvRec o ns threads trials)

/-- One record of `table_rows_raw` (the seconds-based table backing the
normalized CSV and the rendered table image). -/
structure SecRec where
  N : ℕ
  threads : ℕ
  trials : ℕ
  trialS : List (Option ℚ)
  avg_sec : Option ℚ
  speedup : Option ℚ
  total_primes : Option ℤ
deriving DecidableEq

/-- `baseline_sec_by_n.get(n, nan)`: mean of the 1-thread trials, in
seconds, when any were recorded. -/
def baselineSec (o : Oracle) (ns threads : List ℕ) (trials n : ℕ) : Option ℚ :=
  let l := trialsMapGet o ns threads trials n 1
  if l = [] then none else some (l.sum / (l.length : ℚ) / 1000)

/-- `avg_sec = (sum(secs) / len(secs)) if secs else nan`. -/
def secAvg (o : Oracle) (ns threads : List ℕ) (trials n t : ℕ) : Option ℚ :=
  let secs := (trialsMapGet o ns threads trials n t).map (fun x => x / 1000)
  if secs = [] then none else some (secs.sum / (secs.length : ℚ))

/-- `speedup = (base / avg_sec) if (isfinite(base) and isfinite(avg_sec)
and avg_sec > 0) else nan` — note: no nonzero check on the baseline here,
unlike `speedupRaw`. -/
def speedupNorm (base avg : Option ℚ) : Option ℚ :=
  match base, avg with
  | some b, some a => if 0 < a then some (b / a) else none
  | some _, none => none
  | none, _ => none

def mkSecRec (o : Oracle) (ns threads : List ℕ) (trials n t : ℕ) : SecRec :=
  { N := n
    threads := t
    trials := trials
    trialS :=
      (List.range trials).map
        (fun i => ((trialsMapGet o ns threads trials n t).map (fun x => x / 1000)).get? i)
    avg_sec := secAvg o ns threads trials n t
    speedup := speedupNorm (baselineSec o ns threads trials n) (secAvg o ns threads trials n t)
    total_primes :=
      match (rows0 o ns threads trials).find? (fun r => r.N == n && r.threads == t) with
      | some r => r.total_primes
      | none => none }

def secTable (o : Oracle) (ns threads : List ℕ) (trials : ℕ) : List SecRec :=
  (cellsOf ns threads).map (fun p => mkSecRec o ns threads trials p.1 p.2)

/-! Fixed-precision rounding of the normalized CSV
(`float(f"{v:.3f}")`, with non-finite values written as blank). -/

/-- Round a rational to the nearest integer, ties to even (the rounding of
`f"{v:.3f}"`). -/
def rhe (q : ℚ) : ℤ :=
  let f : ℤ := ⌊q⌋
  if q - f < 1 / 2 then f
  else if 1 / 2 < q - f then f + 1
  else if Even f then f else f + 1

/-- Rounding to 3 decimal places. -/
def round3 (x : ℚ) : ℚ := (rhe (x * 1000) : ℚ) / 1000

/-- What one numeric cell of the normalized CSV goes through:
non-finite → blank, finite → rounded to 3 decimals (written in decimal and
hence re-parsed exactly). -/
def csvCell3 : Option ℚ → Option ℚ
  | none => none
  | some x => some (round3 x)

/-- The rounding pass `df_csv[col] = df_csv[col].apply(...)` over one
record of the normalized CSV. -/
def secRecCsv (rec : SecRec) : SecRec :=
  { rec with
      trialS := rec.trialS.map csvCell3
      avg_sec := csvCell3 rec.avg_sec
      speedup := csvCell3 rec.speedup }

/-! The configuration constants of the script. -/

def NS : List ℕ := [1, 10, 100, 1000, 10000, 100000, 1000000, 10000000, 100000000]

def THREADS : List ℕ := [1, 2, 4, 8, 16, 32, 64]

def TRIALS : ℕ := 3

/-! Spec-side description of the two text patterns, used to state the
parser claims: a line of the shape
`[sequential|threaded] elapsed: <number> ms` (case-insensitive, tolerant
of surrounding whitespace, number with an optional fractional component)
and a line `total primes: <integer>`. -/

abbrev wsOnly (l : List Char) : Prop := ∀ c ∈ l, isWs c = true

abbrev digitsOnly (l : List Char) : Prop := ∀ c ∈ l, isDig c = true

/-- A decimal numeral with an optional fractional component. -/
def NumLit (g : List Char) : Prop :=
  (g ≠ [] ∧ digitsOnly g) ∨
  (∃ a b, a ≠ [] ∧ b ≠ [] ∧ digitsOnly a ∧ digitsOnly b ∧ g = a ++ '.' :: b)

/-- `m` is an occurrence of the elapsed-time pattern with numeral `g`. -/
def ElapsedPat (m g : List Char) : Prop :=
  ∃ tag w1 w2 w3 el ms2 : List Char,
    (ciEqL seqLit tag = true ∨ ciEqL thrLit tag = true) ∧
    ciEqL elapsedLit el = true ∧
    ciEqL msLit ms2 = true ∧
    w1 ≠ [] ∧ wsOnly w1 ∧ wsOnly w2 ∧ wsOnly w3 ∧
    NumLit g ∧
    m = '[' :: (tag ++ ']' :: (w1 ++ (el ++ (w2 ++ (g ++ (w3 ++ ms2))))))

/-- `m` is an occurrence of the total-count pattern with digits `d`. -/
def TotalPat (m d : List Char) : Prop :=
  ∃ tl w : List Char,
    ciEqL totalLit tl = true ∧ wsOnly w ∧ d ≠ [] ∧ digitsOnly d ∧
    m = tl ++ (w ++ d)

/-! Concrete texts used to instantiate the parser claims. -/

/-- Scenario 1 of the spec. -/
def scenario1 : String := "[sequential] elapsed: 12.345 ms\ntotal primes: 42"

/-- A text that contains a well-formed elapsed line and a total line, but
whose leftmost `ELAPSED_RE` match captures `"1.2.3"`. -/
def cexParse : String :=
  "[sequential] elapsed: 1.2.3 ms\n[threaded] elapsed: 2 ms\ntotal primes: 4"

/-- A text with an elapsed line but no total line. -/
def noTotalText : String := "[sequential] elapsed: 5 ms"

/-! Helper lemmas: runs of a character class inside `dropWhile`/`takeWhile`,
and case-insensitive literal consumption. -/

theorem dropWhile_cons_false {p : Char → Bool} {c : Char} (x : List Char)
    (h : p c = false) : (c :: x).dropWhile p = c :: x := by
  simp [List.dropWhile, h]

theorem dropWhile_append_all {p : Char → Bool} :
    ∀ (w x : List Char), (∀ c ∈ w, p c = true) →
      (w ++ x).dropWhile p = x.dropWhile p := by
  intro w
  induction w with
  | nil => intro x _; rfl
  | cons c w ih =>
    intro x hw
    have hc : p c = true := hw c (List.mem_cons_self c w)
    simpa [List.dropWhile, hc] using ih x (fun d hd => hw d (List.mem_cons_of_mem c hd))

theorem takeWhile_append_cons_false {p : Char → Bool} :
    ∀ (g : List Char) (c : Char) (x : List Char),
      (∀ a ∈ g, p a = true) → p c = false →
      (g ++ c :: x).takeWhile p = g ∧ (g ++ c :: x).dropWhile p = c :: x := by
  intro g
  induction g with
  | nil =>
    intro c x _ hc
    constructor
    · simp [List.takeWhile, hc]
    · simp [List.dropWhile, hc]
  | cons a g ih =>
    intro c x hg hc
    have ha : p a = true := hg a (List.mem_cons_self a g)
    have hrest := ih c x (fun d hd => hg d (List.mem_cons_of_mem a hd)) hc
    constructor
    · simpa [List.takeWhile, ha] using hrest.1
    · simpa [List.dropWhile, ha] using hrest.2

theorem ciLit_append : ∀ (pat txt r : List Char),
    ciEqL pat txt = true → ciLit pat (txt ++ r) = some r := by
  intro pat
  induction pat with
  | nil =>
    intro txt r h
    cases txt with
    | nil => rfl
    | cons c cs => simp [ciEqL] at h
  | cons p ps ih =>
    intro txt r h
    cases txt with
    | nil => simp [ciEqL] at h
    | cons c cs =>
      simp only [ciEqL, Bool.and_eq_true, beq_iff_eq] at h
      simpa [ciLit, h.1] using ih cs r h.2

theorem ciEqL_cons {p : Char} {ps txt : List Char} (h : ciEqL (p :: ps) txt = true) :
    ∃ c cs, txt = c :: cs ∧ lc p = lc c ∧ ciEqL ps cs = true := by
  cases txt with
  | nil => simp [ciEqL] at h
  | cons c cs =>
    simp only [ciEqL, Bool.and_eq_true, beq_iff_eq] at h
    exact ⟨c, cs, rfl, h.1, h.2⟩

/-! Character-class facts. -/

theorem lc_eq_self_of_isWs {c : Char} (h : isWs c = true) : lc c = c := by
  simp only [isWs, decide_eq_true_eq] at h
  unfold lc
  rw [if_neg]
  omega

theorem lc_eq_self_of_isDigDot {c : Char} (h : isDigDot c = true) : lc c = c := by
  simp only [isDigDot, isDig, Bool.or_eq_true, decide_eq_true_eq] at h
  unfold lc
  rw [if_neg]
  rcases h with h | h
  · omega
  · subst h; decide

theorem isWs_false_of_lc {c d : Char} (h : lc c = d) (hd : isWs d = false) :
    isWs c = false := by
  cases hw : isWs c with
  | false => rfl
  | true =>
    rw [lc_eq_self_of_isWs hw] at h
    subst h
    rw [hw] at hd
    exact hd.symm ▸ rfl

theorem isDigDot_false_of_lc {c d : Char} (h : lc c = d) (hd : isDigDot d = false) :
    isDigDot c = false := by
  cases hw : isDigDot c with
  | false => rfl
  | true =>
    rw [lc_eq_self_of_isDigDot hw] at h
    subst h
    rw [hw] at hd
    exact hd.symm ▸ rfl

theorem isWs_false_of_isDig {c : Char} (h : isDig c = true) : isWs c = false := by
  simp only [isDig, decide_eq_true_eq] at h
  simp only [isWs, decide_eq_false_iff_not]
  omega

theorem isDigDot_false_of_isWs {c : Char} (h : isWs c = true) : isDigDot c = false := by
  simp only [isWs, decide_eq_true_eq] at h
  simp only [isDigDot, isDig, Bool.or_eq_false_iff, decide_eq_false_iff_not]
  constructor
  · omega
  · intro hc
    subst hc
    simp at h

theorem isDigDot_of_isDig {c : Char} (h : isDig c = true) : isDigDot c = true := by
  simp [isDigDot, h]

theorem dropWhile_run {p : Char → Bool} (w : List Char) (d : Char) (x : List Char)
    (hw : ∀ a ∈ w, p a = true) (hd : p d = false) :
    (w ++ d :: x).dropWhile p = d :: x := by
  rw [dropWhile_append_all w _ hw, dropWhile_cons_false _ hd]

theorem dropWhile_run_cons {p : Char → Bool} (c : Char) (w : List Char) (d : Char)
    (x : List Char) (hc : p c = true) (hw : ∀ a ∈ w, p a = true) (hd : p d = false) :
    (c :: (w ++ d :: x)).dropWhile p = d :: x := by
  have hcw : ∀ a ∈ c :: w, p a = true := by
    intro a ha
    rcases List.mem_cons.mp ha with rfl | h
    · exact hc
    · exact hw a h
  simpa [List.cons_append] using dropWhile_run (c :: w) d x hcw hd

theorem run_split {p : Char → Bool} (g0 : Char) (g1 : List Char) (c : Char) (x : List Char)
    (hg : ∀ a ∈ g0 :: g1, p a = true) (hc : p c = false) :
    (g0 :: (g1 ++ c :: x)).takeWhile p = g0 :: g1 ∧
    (g0 :: (g1 ++ c :: x)).dropWhile p = c :: x := by
  simpa [List.cons_append] using takeWhile_append_cons_false (g0 :: g1) c x hg hc

theorem expectChar_self (c : Char) (x : List Char) : expectChar c (c :: x) = some x := by
  simp [expectChar]

theorem expectWs1_run (c : Char) (w : List Char) (d : Char) (x : List Char)
    (hc : isWs c = true) (hw : ∀ a ∈ w, isWs a = true) (hd : isWs d = false) :
    expectWs1 (c :: (w ++ d :: x)) = some (d :: x) := by
  simp only [expectWs1, hc, if_true]
  exact congrArg some (dropWhile_run w d x hw hd)

theorem ciLit_run (p : List Char) (c : Char) (cs x : List Char)
    (h : ciEqL p (c :: cs) = true) : ciLit p (c :: (cs ++ x)) = some x := by
  simpa [List.cons_append] using ciLit_append p (c :: cs) x h

theorem numLit_facts {g : List Char} (h : NumLit g) :
    ∃ g0 g1, g = g0 :: g1 ∧ isDig g0 = true ∧ ∀ a ∈ g0 :: g1, isDigDot a = true := by
  rcases h with ⟨hne, hdig⟩ | ⟨a, b, hane, _hbne, hda, hdb, hg⟩
  · obtain ⟨g0, g1, rfl⟩ := List.exists_cons_of_ne_nil hne
    exact ⟨g0, g1, rfl, hdig g0 (List.mem_cons_self g0 g1),
      fun c hc => isDigDot_of_isDig (hdig c hc)⟩
  · obtain ⟨a0, a1, rfl⟩ := List.exists_cons_of_ne_nil hane
    refine ⟨a0, a1 ++ '.' :: b, by simpa using hg, hda a0 (List.mem_cons_self a0 a1), ?_⟩
    intro c hc
    have hc2 : c ∈ (a0 :: a1) ++ '.' :: b := by simpa using hc
    rcases List.mem_append.mp hc2 with hca | hcb
    · exact isDigDot_of_isDig (hda c hca)
    · rcases List.mem_cons.mp hcb with rfl | hcb
      · decide
      · exact isDigDot_of_isDig (hdb c hcb)

theorem afterTag_pat {tag : List Char} (y : List Char)
    (h : ciEqL seqLit tag = true ∨ ciEqL thrLit tag = true) :
    afterTag (tag ++ y) = some y := by
  rcases h with h | h
  · unfold afterTag
    rw [ciLit_append seqLit tag y h]
  · have hthr : thrLit = 't' :: "hreaded".data := rfl
    obtain ⟨c, cs, htg, hlc, _⟩ := ciEqL_cons (hthr ▸ h)
    have hc : lc c = 't' := by rw [← hlc]; decide
    unfold afterTag
    have hseq : ciLit seqLit (tag ++ y) = none := by
      rw [htg]
      have hs : seqLit = 's' :: "equential".data := rfl
      rw [hs]
      simp only [List.cons_append, ciLit]
      rw [if_neg]
      rw [hc]
      decide
    rw [hseq, ciLit_append thrLit tag y h]

theorem matchElapsedAt_pat {m g : List Char} (r : List Char) (h : ElapsedPat m g) :
    matchElapsedAt (m ++ r) = some g := by
  obtain ⟨tag, w1, w2, w3, el, ms2, htag, hel, hms, hw1ne, hw1, hw2, hw3, hnum, hm⟩ := h
  obtain ⟨g0, g1, hg, hg0, hgdd⟩ := numLit_facts hnum
  obtain ⟨cw1, w1r, rfl⟩ := List.exists_cons_of_ne_nil hw1ne
  have helc : elapsedLit = 'e' :: "lapsed:".data := rfl
  obtain ⟨e0, elr, hele, helc0, _⟩ := ciEqL_cons (helc ▸ hel)
  have he0 : lc e0 = 'e' := by rw [← helc0]; decide
  have hmsc : msLit = 'm' :: "s".data := rfl
  obtain ⟨m0, msr, hmse, hmlc0, _⟩ := ciEqL_cons (hmsc ▸ hms)
  have hm0 : lc m0 = 'm' := by rw [← hmlc0]; decide
  subst hm hg hele hmse
  have hcw1 : isWs cw1 = true := hw1 cw1 (List.mem_cons_self cw1 w1r)
  have hw1r : ∀ c ∈ w1r, isWs c = true := fun c hc => hw1 c (List.mem_cons_of_mem cw1 hc)
  unfold matchElapsedAt
  simp only [List.cons_append, List.append_assoc]
  rw [expectChar_self, Option.some_bind]
  rw [afterTag_pat _ htag, Option.some_bind]
  rw [expectChar_self, Option.some_bind]
  rw [expectWs1_run cw1 w1r e0 _ hcw1 hw1r (isWs_false_of_lc he0 (by decide)), Option.some_bind]
  rw [ciLit_run elapsedLit e0 elr _ hel, Option.some_bind]
  rw [dropWhile_run w2 g0 _ hw2 (isWs_false_of_isDig hg0)]
  have hsplit :
      (g0 :: (g1 ++ (w3 ++ m0 :: (msr ++ r)))).takeWhile isDigDot = g0 :: g1 ∧
      (g0 :: (g1 ++ (w3 ++ m0 :: (msr ++ r)))).dropWhile isDigDot = w3 ++ m0 :: (msr ++ r) := by
    cases w3 with
    | nil =>
      simpa using run_split g0 g1 m0 (msr ++ r) hgdd (isDigDot_false_of_lc hm0 (by decide))
    | cons c3 w3r =>
      simpa [List.cons_append, List.append_assoc] using
        run_split g0 g1 c3 (w3r ++ m0 :: (msr ++ r)) hgdd
          (isDigDot_false_of_isWs (hw3 c3 (List.mem_cons_self c3 w3r)))
  rw [hsplit.1, hsplit.2]
  rw [dropWhile_run w3 m0 _ hw3 (isWs_false_of_lc hm0 (by decide))]
  rw [ciLit_run msLit m0 msr r hms]
  simp

theorem matchTotalAt_pat {m d : List Char} (r : List Char) (h : TotalPat m d) :
    (matchTotalAt (m ++ r)).isSome = true := by
  obtain ⟨tl, w, htl, hw, hdne, hdig, hm⟩ := h
  obtain ⟨d0, dr, rfl⟩ := List.exists_cons_of_ne_nil hdne
  subst hm
  unfold matchTotalAt
  simp only [List.cons_append, List.append_assoc]
  rw [ciLit_append totalLit tl _ htl, Option.some_bind]
  rw [dropWhile_run w d0 _ hw (isWs_false_of_isDig (hdig d0 (List.mem_cons_self d0 dr)))]
  have htw : ((d0 :: (dr ++ r)).takeWhile isDig).isEmpty = false := by
    simp [List.takeWhile, hdig d0 (List.mem_cons_self d0 dr)]
  rw [htw]
  simp

theorem searchWith_head (f : List Char → Option (List Char)) {l g : List Char}
    (h : f l = some g) : searchWith f l = some g := by
  cases l with
  | nil => simpa [searchWith] using h
  | cons c s => simp [searchWith, h]

theorem searchWith_isSome_append (f : List Char → Option (List Char)) :
    ∀ (pre rest : List Char), (f rest).isSome = true →
      (searchWith f (pre ++ rest)).isSome = true := by
  intro pre
  induction pre with
  | nil =>
    intro rest h
    obtain ⟨g, hg⟩ := Option.isSome_iff_exists.mp h
    simp [searchWith_head f hg]
  | cons c pre ih =>
    intro rest h
    rw [List.cons_append]
    cases hf : f (c :: (pre ++ rest)) with
    | some g => simp [searchWith, hf]
    | none =>
      simpa [searchWith, hf] using ih rest h

theorem searchWith_append_skip (f : List Char → Option (List Char)) :
    ∀ (pre rest : List Char), (∀ i, i < pre.length → f (pre.drop i ++ rest) = none) →
      searchWith f (pre ++ rest) = searchWith f rest := by
  intro pre
  induction pre with
  | nil => intro rest _; rfl
  | cons c pre ih =>
    intro rest h
    have h0 : f (c :: (pre ++ rest)) = none := by
      simpa [List.cons_append] using h 0 (by simp)
    rw [List.cons_append]
    show (match f (c :: (pre ++ rest)) with
      | some g => some g
      | none => searchWith f (pre ++ rest)) = searchWith f rest
    rw [h0]
    exact ih rest (fun i hi => by simpa using h (i + 1) (by simpa using hi))

theorem searchWith_eq_none (f : List Char → Option (List Char)) :
    ∀ (l : List Char), (∀ i, i ≤ l.length → f (l.drop i) = none) →
      searchWith f l = none := by
  intro l
  induction l with
  | nil =>
    intro h
    simpa [searchWith] using h 0 (by simp)
  | cons c s ih =>
    intro h
    have h0 : f (c :: s) = none := by simpa using h 0 (by simp)
    simpa [searchWith, h0] using ih (fun i hi => by simpa using h (i + 1) (by simpa using hi))

/-! Lemmas about the trial loop and the sweep. -/

theorem foldl_trialStep_none (o1 : ℕ → Option (ℚ × ℕ)) :
    ∀ l : List ℕ, l.foldl (trialStep o1) none = none := by
  intro l
  induction l with
  | nil => rfl
  | cons i l ih => simpa [trialStep] using ih

theorem foldl_trialStep_some_length (o1 : ℕ → Option (ℚ × ℕ)) :
    ∀ (l : List ℕ) (acc : List ℚ) (tot : Option ℤ) (res : List ℚ × Option ℤ),
      l.foldl (trialStep o1) (some (acc, tot)) = some res →
      res.1.length = acc.length + l.length := by
  intro l
  induction l with
  | nil =>
    intro acc tot res h
    simp only [List.foldl_nil, Option.some.injEq] at h
    subst h
    simp
  | cons i l ih =>
    intro acc tot res h
    rw [List.foldl_cons] at h
    cases hoi : o1 i with
    | some pr =>
      simp only [trialStep, hoi] at h
      have := ih (acc ++ [pr.1]) (some (pr.2 : ℤ)) res h
      simp only [List.length_append, List.length_cons, List.length_nil] at this ⊢
      omega
    | none =>
      simp only [trialStep, hoi] at h
      rw [foldl_trialStep_none] at h
      exact absurd h (by simp)

theorem foldl_trialStep_fail (o1 : ℕ → Option (ℚ × ℕ)) :
    ∀ (l : List ℕ) (acc : List ℚ) (tot : Option ℤ), (∃ i ∈ l, o1 i = none) →
      l.foldl (trialStep o1) (some (acc, tot)) = none := by
  intro l
  induction l with
  | nil => intro acc tot h; simp at h
  | cons j l ih =>
    intro acc tot h
    rw [List.foldl_cons]
    cases hoj : o1 j with
    | none =>
      simp only [trialStep, hoj]
      exact foldl_trialStep_none o1 l
    | some pr =>
      simp only [trialStep, hoj]
      obtain ⟨i, hil, hio⟩ := h
      rcases List.mem_cons.mp hil with rfl | hil
      · rw [hoj] at hio; exact absurd hio (by simp)
      · exact ih _ _ ⟨i, hil, hio⟩

theorem run_trials_some {o : Oracle} {n t k : ℕ} {a : ℚ} {tot : Option ℤ} {ts : List ℚ}
    (h : run_trials o n t k = some (a, tot, ts)) :
    ts ≠ [] ∧ a = ts.sum / (ts.length : ℚ) ∧ ts.length = k ∧
      (List.range k).foldl (trialStep (o n t)) (some ([], none)) = some (ts, tot) := by
  unfold run_trials at h
  cases hf : (List.range k).foldl (trialStep (o n t)) (some ([], none)) with
  | none => rw [hf] at h; exact absurd h (by simp)
  | some pr =>
    obtain ⟨ts0, tot0⟩ := pr
    rw [hf] at h
    dsimp only at h
    by_cases h0 : ts0 = []
    · rw [if_pos h0] at h; exact absurd h (by simp)
    · rw [if_neg h0] at h
      simp only [Option.some.injEq, Prod.mk.injEq] at h
      obtain ⟨ha, htot, hts⟩ := h
      subst hts htot ha
      have hlen := foldl_trialStep_some_length (o n t) (List.range k) [] none (ts0, tot0) hf
      simp only [List.length_nil, List.length_range, Nat.zero_add] at hlen
      exact ⟨h0, rfl, hlen, rfl⟩

theorem run_trials_none_of_fail {o : Oracle} {n t k : ℕ}
    (h : ∃ i, i < k ∧ o n t i = none) : run_trials o n t k = none := by
  obtain ⟨i, hik, hio⟩ := h
  unfold run_trials
  rw [foldl_trialStep_fail (o n t) (List.range k) [] none ⟨i, List.mem_range.mpr hik, hio⟩]

theorem run_trials_none_of_all {o : Oracle} {n t k : ℕ}
    (h : ∀ i, i < k → o n t i = none) : run_trials o n t k = none := by
  cases k with
  | zero => rfl
  | succ k2 => exact run_trials_none_of_fail ⟨0, Nat.succ_pos k2, h 0 (Nat.succ_pos k2)⟩

theorem cellTimes_of_none {o : Oracle} {n t k : ℕ} (h : run_trials o n t k = none) :
    cellTimes o k n t = [] := by
  unfold cellTimes
  rw [h]

theorem cellTimes_of_some {o : Oracle} {n t k : ℕ} {a : ℚ} {tot : Option ℤ} {ts : List ℚ}
    (h : run_trials o n t k = some (a, tot, ts)) : cellTimes o k n t = ts := by
  unfold cellTimes
  rw [h]

theorem mem_cellsOf {x : ℕ × ℕ} : ∀ {ns ts : List ℕ},
    x ∈ cellsOf ns ts ↔ x.1 ∈ ns ∧ x.2 ∈ ts := by
  intro ns
  induction ns with
  | nil => intro ts; simp [cellsOf]
  | cons n rest ih =>
    intro ts
    simp only [cellsOf, List.mem_append, List.mem_map, ih, List.mem_cons]
    constructor
    · rintro (⟨t, ht, rfl⟩ | ⟨h1, h2⟩)
      · exact ⟨Or.inl rfl, ht⟩
      · exact ⟨Or.inr h1, h2⟩
    · rintro ⟨h1 | h1, h2⟩
      · subst h1
        exact Or.inl ⟨x.2, h2, rfl⟩
      · exact Or.inr ⟨h1, h2⟩

theorem length_cellsOf : ∀ (ns ts : List ℕ),
    (cellsOf ns ts).length = ns.length * ts.length := by
  intro ns
  induction ns with
  | nil => intro ts; simp [cellsOf]
  | cons n rest ih =>
    intro ts
    simp only [cellsOf, List.length_append, List.length_map, ih, List.length_cons]
    ring

theorem mkRow_N (o : Oracle) (k n t : ℕ) : (mkRow o k n t).N = n := rfl

theorem mkRow_threads (o : Oracle) (k n t : ℕ) : (mkRow o k n t).threads = t := rfl

theorem mem_rows0 {r : Row} {o : Oracle} {ns threads : List ℕ} {k : ℕ} :
    r ∈ rows0 o ns threads k ↔ ∃ n ∈ ns, ∃ t ∈ threads, r = mkRow o k n t := by
  unfold rows0
  simp only [List.mem_map]
  constructor
  · rintro ⟨p, hp, rfl⟩
    exact ⟨p.1, (mem_cellsOf.mp hp).1, p.2, (mem_cellsOf.mp hp).2, rfl⟩
  · rintro ⟨n, hn, t, ht, rfl⟩
    exact ⟨(n, t), mem_cellsOf.mpr ⟨hn, ht⟩, rfl⟩

theorem baseMs_eq (o : Oracle) (ns threads : List ℕ) (k n : ℕ) :
    baseMs o ns threads k n =
      if n ∈ ns ∧ 1 ∈ threads then (mkRow o k n 1).avg_ms else none := by
  by_cases h : n ∈ ns ∧ 1 ∈ threads
  · rw [if_pos h]
    have hmem : mkRow o k n 1 ∈ rows0 o ns threads k :=
      mem_rows0.mpr ⟨n, h.1, 1, h.2, rfl⟩
    have hpred : ((mkRow o k n 1).N == n && (mkRow o k n 1).threads == 1) = true := by
      rw [mkRow_N, mkRow_threads]
      simp
    have hs : ((rows0 o ns threads k).find? (fun r => r.N == n && r.threads == 1)).isSome :=
      List.find?_isSome.mpr ⟨mkRow o k n 1, hmem, hpred⟩
    obtain ⟨r, hr⟩ := Option.isSome_iff_exists.mp hs
    have hrp := List.find?_some hr
    have hrm := List.mem_of_find?_eq_some hr
    obtain ⟨n2, hn2, t2, ht2, rfl⟩ := mem_rows0.mp hrm
    simp only [mkRow_N, mkRow_threads, Bool.and_eq_true, beq_iff_eq] at hrp
    obtain ⟨rfl, rfl⟩ := hrp
    unfold baseMs
    rw [hr]
  · rw [if_neg h]
    have hnone : (rows0 o ns threads k).find? (fun r => r.N == n && r.threads == 1) = none := by
      rw [List.find?_eq_none]
      intro r hrm hrp
      obtain ⟨n2, hn2, t2, ht2, rfl⟩ := mem_rows0.mp hrm
      simp only [mkRow_N, mkRow_threads, Bool.and_eq_true, beq_iff_eq] at hrp
      obtain ⟨rfl, rfl⟩ := hrp
      exact h ⟨hn2, ht2⟩
    unfold baseMs
    rw [hnone]

theorem rowsFinal_eq (o : Oracle) (ns threads : List ℕ) (k : ℕ) :
    rowsFinal o ns threads k =
      (cellsOf ns threads).map (fun p => mkRowFinal o ns threads k p.1 p.2) := by
  unfold rowsFinal rows0 mkRowFinal
  rw [List.map_map]
  rfl

theorem mem_rowsFinal {r : Row} {o : Oracle} {ns threads : List ℕ} {k : ℕ} :
    r ∈ rowsFinal o ns threads k ↔
      ∃ n ∈ ns, ∃ t ∈ threads, r = mkRowFinal o ns threads k n t := by
  rw [rowsFinal_eq]
  simp only [List.mem_map]
  constructor
  · rintro ⟨p, hp, rfl⟩
    exact ⟨p.1, (mem_cellsOf.mp hp).1, p.2, (mem_cellsOf.mp hp).2, rfl⟩
  · rintro ⟨n, hn, t, ht, rfl⟩
    exact ⟨(n, t), mem_cellsOf.mpr ⟨hn, ht⟩, rfl⟩

theorem length_rowsFinal (o : Oracle) (ns threads : List ℕ) (k : ℕ) :
    (rowsFinal o ns threads k).length = ns.length * threads.length := by
  rw [rowsFinal_eq, List.length_map, length_cellsOf]

theorem mkRowFinal_speedup (o : Oracle) (ns threads : List ℕ) (k n t : ℕ) :
    (mkRowFinal o ns threads k n t).speedup =
      speedupRaw (baseMs o ns threads k n) (mkRow o k n t).avg_ms := rfl

theorem mkRowFinal_avg_ms (o : Oracle) (ns threads : List ℕ) (k n t : ℕ) :
    (mkRowFinal o ns threads k n t).avg_ms = (mkRow o k n t).avg_ms := rfl

theorem sum_map_div (l : List ℚ) (c : ℚ) :
    (l.map (fun x => x / c)).sum = l.sum / c := by
  induction l with
  | nil => simp
  | cons a l ih => simp [ih, add_div]

theorem mkRow_avg_of_none {o : Oracle} {n t k : ℕ} (h : run_trials o n t k = none) :
    (mkRow o k n t).avg_ms = none := by
  show (run_trials o n t k).map (fun x => x.1) = none
  rw [h]
  rfl

theorem mkRow_avg_of_some {o : Oracle} {n t k : ℕ} {a : ℚ} {tot : Option ℤ} {ts : List ℚ}
    (h : run_trials o n t k = some (a, tot, ts)) : (mkRow o k n t).avg_ms = some a := by
  show (run_trials o n t k).map (fun x => x.1) = some a
  rw [h]
  rfl

theorem mkRow_total_of_none {o : Oracle} {n t k : ℕ} (h : run_trials o n t k = none) :
    (mkRow o k n t).total_primes = some (-1) := by
  show (match run_trials o n t k with
    | none => some (-1)
    | some (_, tot, _) => tot) = some (-1)
  rw [h]

theorem trialsMapGet_pos {o : Oracle} {ns threads : List ℕ} {k n t : ℕ}
    (hn : n ∈ ns) (ht : t ∈ threads) :
    trialsMapGet o ns threads k n t = cellTimes o k n t := by
  unfold trialsMapGet
  exact if_pos ⟨hn, ht⟩

theorem trialsMapGet_neg {o : Oracle} {ns threads : List ℕ} {k n t : ℕ}
    (h : ¬ (n ∈ ns ∧ t ∈ threads)) :
    trialsMapGet o ns threads k n t = [] := by
  unfold trialsMapGet
  exact if_neg h

theorem secAvg_def (o : Oracle) (ns threads : List ℕ) (k n t : ℕ) :
    secAvg o ns threads k n t =
      if (trialsMapGet o ns threads k n t).map (fun x => x / 1000) = [] then none
      else some (((trialsMapGet o ns threads k n t).map (fun x => x / 1000)).sum /
        ((((trialsMapGet o ns threads k n t).map (fun x => x / 1000)).length : ℕ) : ℚ)) := rfl

theorem baselineSec_def (o : Oracle) (ns threads : List ℕ) (k n : ℕ) :
    baselineSec o ns threads k n =
      if trialsMapGet o ns threads k n 1 = [] then none
      else some ((trialsMapGet o ns threads k n 1).sum /
        (((trialsMapGet o ns threads k n 1).length : ℕ) : ℚ) / 1000) := rfl

theorem secAvg_eq {o : Oracle} {ns threads : List ℕ} {k n t : ℕ}
    (hn : n ∈ ns) (ht : t ∈ threads) :
    secAvg o ns threads k n t = ((mkRow o k n t).avg_ms).map (fun a => a / 1000) := by
  rw [secAvg_def, trialsMapGet_pos hn ht]
  cases hrt : run_trials o n t k with
  | none =>
    rw [mkRow_avg_of_none hrt, cellTimes_of_none hrt]
    simp
  | some pr =>
    obtain ⟨a, tot, ts⟩ := pr
    obtain ⟨hne, ha, hlen, _⟩ := run_trials_some hrt
    rw [mkRow_avg_of_some hrt, cellTimes_of_some hrt]
    have hmapne : ¬ (ts.map (fun x => x / 1000) = []) := by simpa using hne
    rw [if_neg hmapne]
    rw [sum_map_div, List.length_map]
    subst ha
    rw [Option.map_some']
    congr 1
    rw [div_div, div_div, mul_comm]

theorem baselineSec_eq (o : Oracle) (ns threads : List ℕ) (k n : ℕ) :
    baselineSec o ns threads k n = (baseMs o ns threads k n).map (fun a => a / 1000) := by
  rw [baselineSec_def, baseMs_eq]
  by_cases h : n ∈ ns ∧ 1 ∈ threads
  · rw [if_pos h, trialsMapGet_pos h.1 h.2]
    cases hrt : run_trials o n 1 k with
    | none =>
      rw [mkRow_avg_of_none hrt, cellTimes_of_none hrt]
      simp
    | some pr =>
      obtain ⟨a, tot, ts⟩ := pr
      obtain ⟨hne, ha, hlen, _⟩ := run_trials_some hrt
      rw [mkRow_avg_of_some hrt, cellTimes_of_some hrt, if_neg hne]
      subst ha
      simp
  · rw [if_neg h, trialsMapGet_neg h]
    simp

theorem rhe_intCast (z : ℤ) : rhe (z : ℚ) = z := by
  unfold rhe
  rw [Int.floor_intCast]
  rw [if_pos]
  rw [sub_self]
  norm_num

theorem round3_idem (x : ℚ) : round3 (round3 x) = round3 x := by
  unfold round3
  rw [div_mul_cancel₀ _ (by norm_num : (1000 : ℚ) ≠ 0)]
  rw [rhe_intCast]

/-- C10: the per-trial sample list of a cell has length exactly `trials`
or zero, never strictly in between: a single failed trial makes the whole
cell empty, with the NaN average and `-1` result count. -/
theorem c10_all_or_nothing (o : Oracle) (n t k : ℕ) :
    ((cellTimes o k n t).length = k ∨ (cellTimes o k n t).length = 0) ∧
    ((∃ i, i < k ∧ o n t i = none) →
      cellTimes o k n t = [] ∧ (mkRow o k n t).avg_ms = none ∧
      (mkRow o k n t).total_primes = some (-1)) := by
  constructor
  · cases hrt : run_trials o n t k with
    | none =>
      right
      rw [cellTimes_of_none hrt]
      rfl
    | some pr =>
      obtain ⟨a, tot, ts⟩ := pr
      left
      rw [cellTimes_of_some hrt]
      exact (run_trials_some hrt).2.2.1
  · intro hfail
    have hrt := run_trials_none_of_fail hfail
    exact ⟨cellTimes_of_none hrt, mkRow_avg_of_none hrt, mkRow_total_of_none hrt⟩

theorem c10_all_or_nothing_witness :
    cellTimes (fun _ _ i => if i = 0 then some ((100 : ℚ), 5) else none) 2 10 2 = [] ∧
    (mkRow (fun _ _ i => if i = 0 then some ((100 : ℚ), 5) else none) 2 10 2).avg_ms = none ∧
    (mkRow (fun _ _ i => if i = 0 then some ((100 : ℚ), 5) else none) 2 10 2).total_primes =
      some (-1) :=
  (c10_all_or_nothing (fun _ _ i => if i = 0 then some ((100 : ℚ), 5) else none) 10 2 2).2
    ⟨1, by norm_num, by decide⟩

/-- C6: when `run_trials` returns, the recorded average is the arithmetic
mean of the recorded per-trial values, and that mean is invariant under any
permutation of the recorded values. -/
theorem c6_avg_mean_perm (o : Oracle) (n t k : ℕ) (a : ℚ) (tot : Option ℤ) (ts : List ℚ)
    (h : run_trials o n t k = some (a, tot, ts)) :
    a = ts.sum / (ts.length : ℚ) ∧
    ∀ l2 : List ℚ, ts.Perm l2 → a = l2.sum / (l2.length : ℚ) := by
  obtain ⟨_, ha, _, _⟩ := run_trials_some h
  refine ⟨ha, fun l2 hp => ?_⟩
  rw [ha, hp.sum_eq, hp.length_eq]

theorem c6_avg_mean_perm_witness :
    ((3 : ℚ) / 2 = [(1 : ℚ), 2].sum / (([(1 : ℚ), 2].length : ℕ) : ℚ)) ∧
    ((3 : ℚ) / 2 = [(2 : ℚ), 1].sum / (([(2 : ℚ), 1].length : ℕ) : ℚ)) := by
  have h := c6_avg_mean_perm (fun _ _ i => some (((i : ℚ) + 1), 7)) 5 2 2 (3 / 2) (some 7)
    [1, 2] (by with_unfolding_all decide)
  exact ⟨h.1, h.2 [2, 1] (by decide)⟩

/-- C1 counterexample: with two configured trials, the first invocation
succeeds (100 ms) and the second raises; the claim predicts the surviving
sample list `[100]` with average 100, but the code records an empty sample
list and the NaN average — an individual trial failure is not excluded
from the cell's sample list, it empties the cell. -/
theorem c1_counterexample :
    (fun _ _ i => if i = 0 then some ((100 : ℚ), 5) else none : Oracle) 10 2 0 =
      some (100, 5) ∧
    (fun _ _ i => if i = 0 then some ((100 : ℚ), 5) else none : Oracle) 10 2 1 = none ∧
    cellTimes (fun _ _ i => if i = 0 then some ((100 : ℚ), 5) else none) 2 10 2 = [] ∧
    (mkRow (fun _ _ i => if i = 0 then some ((100 : ℚ), 5) else none) 2 10 2).avg_ms ≠
      some 100 := by
  refine ⟨by decide, by decide, by with_unfolding_all decide, by with_unfolding_all decide⟩

/-- C1 (amended): a trial failure is caught at cell granularity: it aborts
the remaining trials of its cell and discards that cell's successful
samples (empty list, NaN average, `-1` count), but does not abort the
sweep — the grid still has one row per configured pair; when all trials
succeed the average is the mean over all of them. -/
theorem c1_cell_level_failure (o : Oracle) (ns threads : List ℕ) (k n t : ℕ)
    (hn : n ∈ ns) (ht : t ∈ threads) :
    ((∃ i, i < k ∧ o n t i = none) →
      cellTimes o k n t = [] ∧
      (mkRowFinal o ns threads k n t).avg_ms = none ∧
      (mkRowFinal o ns threads k n t).total_primes = some (-1)) ∧
    (∀ (a : ℚ) (tot : Option ℤ) (ts : List ℚ), run_trials o n t k = some (a, tot, ts) →
      cellTimes o k n t = ts ∧ ts.length = k ∧ a = ts.sum / (ts.length : ℚ)) ∧
    mkRowFinal o ns threads k n t ∈ rowsFinal o ns threads k ∧
    (rowsFinal o ns threads k).length = ns.length * threads.length := by
  refine ⟨?_, ?_, mem_rowsFinal.mpr ⟨n, hn, t, ht, rfl⟩, length_rowsFinal o ns threads k⟩
  · intro hfail
    have hrt := run_trials_none_of_fail hfail
    exact ⟨cellTimes_of_none hrt, mkRow_avg_of_none hrt, mkRow_total_of_none hrt⟩
  · intro a tot ts h
    obtain ⟨_, ha, hlen, _⟩ := run_trials_some h
    exact ⟨cellTimes_of_some h, hlen, ha⟩

theorem c1_cell_level_failure_witness :
    cellTimes (fun _ _ i => if i = 0 then some ((50 : ℚ), 3) else none) 2 10 2 = [] ∧
    (mkRowFinal (fun _ _ i => if i = 0 then some ((50 : ℚ), 3) else none)
      [10] [1, 2] 2 10 2).avg_ms = none ∧
    (mkRowFinal (fun _ _ i => if i = 0 then some ((50 : ℚ), 3) else none)
      [10] [1, 2] 2 10 2).total_primes = some (-1) :=
  (c1_cell_level_failure (fun _ _ i => if i = 0 then some ((50 : ℚ), 3) else none)
    [10] [1, 2] 2 10 2 (by decide) (by decide)).1 ⟨1, by norm_num, by decide⟩

/-- C4: a cell for which zero trials succeeded is recorded with the NaN
average and result count `-1`, and still contributes exactly its one row to
the rows list, the raw CSV, and the normalized (seconds) table, whose row
counts are always `|sizes| * |concurrency levels|`. -/
theorem c4_zero_success_sentinel (o : Oracle) (ns threads : List ℕ) (k n t : ℕ)
    (hn : n ∈ ns) (ht : t ∈ threads) (hfail : ∀ i, i < k → o n t i = none) :
    (mkRowFinal o ns threads k n t).avg_ms = none ∧
    (mkRowFinal o ns threads k n t).total_primes = some (-1) ∧
    (∀ c ∈ (toCsvRec o ns threads k (mkRowFinal o ns threads k n t)).trialCells, c = none) ∧
    mkRowFinal o ns threads k n t ∈ rowsFinal o ns threads k ∧
    (rowsFinal o ns threads k).length = ns.length * threads.length ∧
    toCsvRec o ns threads k (mkRowFinal o ns threads k n t) ∈ rawCsvRows o ns threads k ∧
    (rawCsvRows o ns threads k).length = ns.length * threads.length ∧
    mkSecRec o ns threads k n t ∈ secTable o ns threads k ∧
    (secTable o ns threads k).length = ns.length * threads.length := by
  have hrt := run_trials_none_of_all hfail
  have hmem : mkRowFinal o ns threads k n t ∈ rowsFinal o ns threads k :=
    mem_rowsFinal.mpr ⟨n, hn, t, ht, rfl⟩
  refine ⟨mkRow_avg_of_none hrt, mkRow_total_of_none hrt, ?_, hmem,
    length_rowsFinal o ns threads k, ?_, ?_, ?_, ?_⟩
  · intro c hc
    unfold toCsvRec at hc
    obtain ⟨i, _, rfl⟩ := List.mem_map.mp hc
    rw [show (mkRowFinal o ns threads k n t).N = n from rfl,
        show (mkRowFinal o ns threads k n t).threads = t from rfl,
        trialsMapGet_pos hn ht, cellTimes_of_none hrt]
    rfl
  · exact List.mem_map.mpr ⟨mkRowFinal o ns threads k n t, hmem, rfl⟩
  · unfold rawCsvRows
    rw [List.length_map, length_rowsFinal]
  · unfold secTable
    exact List.mem_map.mpr ⟨(n, t), mem_cellsOf.mpr ⟨hn, ht⟩, rfl⟩
  · unfold secTable
    rw [List.length_map, length_cellsOf]

theorem c4_zero_success_sentinel_witness :
    (mkRowFinal (fun _ _ _ => none) [10] [1, 2] 3 10 2).avg_ms = none ∧
    (mkRowFinal (fun _ _ _ => none) [10] [1, 2] 3 10 2).total_primes = some (-1) ∧
    (rowsFinal (fun _ _ _ => none) [10] [1, 2] 3).length =
      ([10] : List ℕ).length * ([1, 2] : List ℕ).length := by
  have h := c4_zero_success_sentinel (fun _ _ _ => none) [10] [1, 2] 3 10 2
    (by decide) (by decide) (fun i _ => rfl)
  exact ⟨h.1, h.2.1, h.2.2.2.2.1⟩

/-- C3: whenever a size's 1-thread baseline average exists (is finite) and
is strictly positive, the speedup recorded on the baseline's own row is
exactly 1. -/
theorem c3_baseline_speedup_one (o : Oracle) (ns threads : List ℕ) (k n : ℕ) (b : ℚ)
    (hb : baseMs o ns threads k n = some b) (hpos : 0 < b) :
    ∀ r ∈ rowsFinal o ns threads k, r.N = n → r.threads = 1 → r.speedup = some 1 := by
  intro r hr hN hT
  obtain ⟨n2, _, t2, _, rfl⟩ := mem_rowsFinal.mp hr
  have hN2 : n2 = n := hN
  have hT2 : t2 = 1 := hT
  subst hN2 hT2
  rw [mkRowFinal_speedup]
  have havg : (mkRow o k n2 1).avg_ms = some b := by
    have heq := baseMs_eq o ns threads k n2
    rw [hb] at heq
    by_cases h : n2 ∈ ns ∧ 1 ∈ threads
    · rw [if_pos h] at heq
      exact heq.symm
    · rw [if_neg h] at heq
      exact absurd heq (by simp)
  rw [hb, havg]
  show (if b ≠ 0 ∧ b ≠ 0 ∧ 0 < b then some (b / b) else none) = some 1
  rw [if_pos ⟨ne_of_gt hpos, ne_of_gt hpos, hpos⟩, div_self (ne_of_gt hpos)]

theorem c3_baseline_speedup_one_witness :
    (mkRowFinal (fun _ _ _ => some ((100 : ℚ), 7)) [10] [1, 2] 1 10 1).speedup = some 1 :=
  c3_baseline_speedup_one (fun _ _ _ => some ((100 : ℚ), 7)) [10] [1, 2] 1 10 100
    (by with_unfolding_all decide) (by norm_num)
    (mkRowFinal (fun _ _ _ => some ((100 : ℚ), 7)) [10] [1, 2] 1 10 1)
    (mem_rowsFinal.mpr ⟨10, by decide, 1, by decide, rfl⟩) rfl rfl

/-- C2 (amended): the baseline of a size is the 1-thread row's non-NaN
average; the speedup written on a row is `base / avg` when the baseline is
present AND NONZERO and the cell average is present and strictly positive,
else NaN (Python truthiness discards a zero baseline); the normalized
(seconds) speedup follows the claim's rule exactly, with no nonzero check
on the baseline. -/
theorem c2_speedup_rule (o : Oracle) (ns threads : List ℕ) (k : ℕ) :
    (∀ n, baseMs o ns threads k n =
      if n ∈ ns ∧ 1 ∈ threads then (mkRow o k n 1).avg_ms else none) ∧
    (∀ r ∈ rowsFinal o ns threads k,
      r.speedup =
        match baseMs o ns threads k r.N, r.avg_ms with
        | some b, some a => if b ≠ 0 ∧ 0 < a then some (b / a) else none
        | some _, none => none
        | none, _ => none) ∧
    (∀ n t, (mkSecRec o ns threads k n t).speedup =
        match baselineSec o ns threads k n, secAvg o ns threads k n t with
        | some b, some a => if 0 < a then some (b / a) else none
        | some _, none => none
        | none, _ => none) := by
  refine ⟨baseMs_eq o ns threads k, ?_, ?_⟩
  · intro r hr
    obtain ⟨n2, _, t2, _, rfl⟩ := mem_rowsFinal.mp hr
    rw [mkRowFinal_speedup,
        show (mkRowFinal o ns threads k n2 t2).N = n2 from rfl,
        show (mkRowFinal o ns threads k n2 t2).avg_ms = (mkRow o k n2 t2).avg_ms from rfl]
    cases hbase : baseMs o ns threads k n2 with
    | none => rfl
    | some b =>
      cases havg : (mkRow o k n2 t2).avg_ms with
      | none => rfl
      | some a =>
        show (if b ≠ 0 ∧ a ≠ 0 ∧ 0 < a then some (b / a) else none) =
          (if b ≠ 0 ∧ 0 < a then some (b / a) else none)
        by_cases hc : b ≠ 0 ∧ 0 < a
        · rw [if_pos ⟨hc.1, ne_of_gt hc.2, hc.2⟩, if_pos hc]
        · rw [if_neg (fun hc2 => hc ⟨hc2.1, hc2.2.2⟩), if_neg hc]
  · intro n t
    show speedupNorm (baselineSec o ns threads k n) (secAvg o ns threads k n t) = _
    cases hbase : baselineSec o ns threads k n with
    | none => rfl
    | some b =>
      cases havg : secAvg o ns threads k n t with
      | none => rfl
      | some a => rfl

theorem c2_speedup_rule_witness :
    (mkRowFinal (fun _ t _ => some ((if t = 1 then (100 : ℚ) else 200), 5))
      [10] [1, 2] 1 10 2).speedup = some (1 / 2) := by
  have h := (c2_speedup_rule (fun _ t _ => some ((if t = 1 then (100 : ℚ) else 200), 5))
      [10] [1, 2] 1).2.1
    (mkRowFinal (fun _ t _ => some ((if t = 1 then (100 : ℚ) else 200), 5)) [10] [1, 2] 1 10 2)
    (mem_rowsFinal.mpr ⟨10, by decide, 2, by decide, rfl⟩)
  rw [h]
  with_unfolding_all decide

/-- C2 counterexample: a baseline whose trials all measure exactly 0 ms is
finite, and the (10, 2) cell average 1000 ms is finite and positive, so the
claim demands `speedup = 0 / 1000 = 0`; the code records NaN, because a
zero baseline is falsy in Python. -/
theorem c2_counterexample :
    baseMs (fun _ t _ => some ((if t = 1 then (0 : ℚ) else 1000), 5)) [10] [1, 2] 1 10 =
      some 0 ∧
    (mkRowFinal (fun _ t _ => some ((if t = 1 then (0 : ℚ) else 1000), 5))
      [10] [1, 2] 1 10 2).avg_ms = some 1000 ∧
    (mkRowFinal (fun _ t _ => some ((if t = 1 then (0 : ℚ) else 1000), 5))
      [10] [1, 2] 1 10 2).speedup = none := by
  refine ⟨by with_unfolding_all decide, by with_unfolding_all decide,
    by with_unfolding_all decide⟩

/-- C5 (amended): for every configured cell whose baseline average is not
exactly zero, the speedup written to the raw CSV row and the one computed
for the normalized (seconds) CSV and table agree exactly and are defined
for the same cells; a zero baseline is the one divergence (raw: NaN,
normalized: 0). -/
theorem c5_speedup_agreement (o : Oracle) (ns threads : List ℕ) (k n t : ℕ)
    (hn : n ∈ ns) (ht : t ∈ threads)
    (hbz : ∀ b, baseMs o ns threads k n = some b → b ≠ 0) :
    (mkRowFinal o ns threads k n t).speedup = (mkSecRec o ns threads k n t).speedup := by
  rw [mkRowFinal_speedup]
  show speedupRaw (baseMs o ns threads k n) (mkRow o k n t).avg_ms =
    speedupNorm (baselineSec o ns threads k n) (secAvg o ns threads k n t)
  rw [baselineSec_eq, secAvg_eq hn ht]
  cases hbase : baseMs o ns threads k n with
  | none =>
    cases havg : (mkRow o k n t).avg_ms with
    | none => rfl
    | some a => rfl
  | some b =>
    have hb : b ≠ 0 := hbz b hbase
    cases havg : (mkRow o k n t).avg_ms with
    | none => rfl
    | some a =>
      show (if b ≠ 0 ∧ a ≠ 0 ∧ 0 < a then some (b / a) else none) =
        (if 0 < a / 1000 then some ((b / 1000) / (a / 1000)) else none)
      by_cases hpos : 0 < a
      · rw [if_pos ⟨hb, ne_of_gt hpos, hpos⟩, if_pos (div_pos hpos (by norm_num))]
        congr 1
        field_simp
      · have hpos2 : ¬ 0 < a / 1000 := by
          intro hca
          exact hpos (by nlinarith [hca])
        rw [if_neg (fun hc => hpos hc.2.2), if_neg hpos2]

theorem c5_speedup_agreement_witness :
    (mkRowFinal (fun _ t _ => some ((if t = 1 then (100 : ℚ) else 200), 5))
      [10] [1, 2] 1 10 2).speedup =
    (mkSecRec (fun _ t _ => some ((if t = 1 then (100 : ℚ) else 200), 5))
      [10] [1, 2] 1 10 2).speedup :=
  c5_speedup_agreement (fun _ t _ => some ((if t = 1 then (100 : ℚ) else 200), 5))
    [10] [1, 2] 1 10 2 (by decide) (by decide)
    (fun b hb => by
      have h100 : baseMs (fun _ t _ => some ((if t = 1 then (100 : ℚ) else 200), 5))
          [10] [1, 2] 1 10 = some 100 := by with_unfolding_all decide
      rw [h100] at hb
      rw [← Option.some.inj hb]
      norm_num)

/-- C5 counterexample: with a zero baseline average and a positive cell
average, the raw CSV speedup is NaN while the normalized (seconds) speedup
is 0 — the two representations are not defined on exactly the same cells. -/
theorem c5_counterexample :
    (mkRowFinal (fun _ t _ => some ((if t = 1 then (0 : ℚ) else 1000), 5))
      [10] [1, 2] 1 10 2).speedup = none ∧
    (mkSecRec (fun _ t _ => some ((if t = 1 then (0 : ℚ) else 1000), 5))
      [10] [1, 2] 1 10 2).speedup = some 0 := by
  refine ⟨by with_unfolding_all decide, by with_unfolding_all decide⟩

/-- C9: the 3-decimal rounding applied to normalized CSV cells is
idempotent (the written decimal re-parses exactly, and rounding it again is
the identity), and a missing/non-finite value stays blank (`none`) rather
than becoming a sentinel token. -/
theorem c9_round3_idempotent :
    (∀ x : ℚ, csvCell3 (csvCell3 (some x)) = csvCell3 (some x)) ∧
    csvCell3 none = none ∧
    (∀ rec : SecRec, secRecCsv (secRecCsv rec) = secRecCsv rec) := by
  have hcc : ∀ v : Option ℚ, csvCell3 (csvCell3 v) = csvCell3 v := by
    intro v
    cases v with
    | none => rfl
    | some x =>
      show some (round3 (round3 x)) = some (round3 x)
      rw [round3_idem]
  have hfun : csvCell3 ∘ csvCell3 = csvCell3 := funext hcc
  refine ⟨fun x => hcc (some x), rfl, fun rec => ?_⟩
  cases rec
  simp only [secRecCsv, List.map_map, hfun, hcc]

theorem elapsedPat_scenario1 :
    ElapsedPat "[sequential] elapsed: 12.345 ms".data "12.345".data :=
  ⟨"sequential".data, [' '], [' '], [' '], "elapsed:".data, "ms".data,
    Or.inl (by decide), by decide, by decide, by decide, by decide, by decide, by decide,
    Or.inr ⟨"12".data, "345".data, by decide, by decide, by decide, by decide, by decide⟩,
    by decide⟩

theorem totalPat_scenario1 :
    TotalPat "total primes: 42".data ['4', '2'] :=
  ⟨"total primes:".data, [' '], by decide, by decide, by decide, by decide, by decide⟩

theorem searchElapsed_scenario1 : searchElapsed scenario1.data = some "12.345".data := by
  have hsplit : scenario1.data =
      "[sequential] elapsed: 12.345 ms".data ++ "\ntotal primes: 42".data := by decide
  unfold searchElapsed
  rw [hsplit]
  exact searchWith_head matchElapsedAt (matchElapsedAt_pat _ elapsedPat_scenario1)

theorem searchTotal_scenario1 : searchTotal scenario1.data = some ['4', '2'] := by
  have hsplit : scenario1.data =
      "[sequential] elapsed: 12.345 ms\n".data ++ "total primes: 42".data := by decide
  unfold searchTotal
  rw [hsplit]
  rw [searchWith_append_skip matchTotalAt _ _ (by decide)]
  apply searchWith_head
  with_unfolding_all decide

theorem parseFloatQ_12345 : parseFloatQ "12.345".data = some (2469 / 200) := by
  have hc0 : ¬ ("12.345".data.count '.' = 0) := by decide
  have hc1 : "12.345".data.count '.' = 1 := by decide
  have ha : "12.345".data.takeWhile (fun c => c != '.') = "12".data := by decide
  have hb : ("12.345".data.dropWhile (fun c => c != '.')).drop 1 = "345".data := by decide
  have hd1 : digitsVal "12".data = 12 := by decide
  have hd2 : digitsVal "345".data = 345 := by decide
  have hlen : "345".data.length = 3 := by decide
  unfold parseFloatQ
  rw [if_neg hc0, if_pos hc1, ha, hb, hd1, hd2, hlen]
  rw [if_neg (by decide :
    ¬ (("12".data : List Char).isEmpty && ("345".data : List Char).isEmpty) = true)]
  norm_num

/-- C7 (amended): if the captured text contains an occurrence of the
elapsed-time pattern (with a well-formed numeral) and an occurrence of the
total-count pattern, and the leftmost `ELAPSED_RE` capture is a well-formed
numeral, then the parse stage succeeds; in particular Scenario 1 returns
`(12.345, 42)`. -/
theorem c7_parse_success :
    (∀ (s : List Char) (n t : ℕ),
      (∃ p m r g, s = p ++ (m ++ r) ∧ ElapsedPat m g) →
      (∃ p m r d, s = p ++ (m ++ r) ∧ TotalPat m d) →
      (∀ g, searchElapsed s = some g → (parseFloatQ g).isSome = true) →
      ∃ q tot, runOnceParse n t (String.mk s) = RunOutcome.ok q tot) ∧
    runOnceParse 1 1 scenario1 = RunOutcome.ok (2469 / 200) 42 := by
  constructor
  · rintro s n t ⟨p1, m1, r1, g1, rfl, hep⟩ ⟨p2, m2, r2, d2, heq, htp⟩ hwf
    have hE : (searchElapsed (p1 ++ (m1 ++ r1))).isSome = true := by
      unfold searchElapsed
      apply searchWith_isSome_append
      rw [matchElapsedAt_pat r1 hep]
      rfl
    obtain ⟨g, hg⟩ := Option.isSome_iff_exists.mp hE
    have hT : (searchTotal (p1 ++ (m1 ++ r1))).isSome = true := by
      unfold searchTotal
      rw [heq]
      exact searchWith_isSome_append matchTotalAt p2 (m2 ++ r2) (matchTotalAt_pat r2 htp)
    obtain ⟨d, hd⟩ := Option.isSome_iff_exists.mp hT
    obtain ⟨q, hq2⟩ := Option.isSome_iff_exists.mp (hwf g hg)
    refine ⟨q, digitsVal d, ?_⟩
    unfold runOnceParse
    rw [show (String.mk (p1 ++ (m1 ++ r1))).data = p1 ++ (m1 ++ r1) from rfl]
    rw [hg, hd]
    show (match parseFloatQ g with
      | some q => RunOutcome.ok q (digitsVal d)
      | none => RunOutcome.valueFail) = RunOutcome.ok q (digitsVal d)
    rw [hq2]
  · unfold runOnceParse
    rw [searchElapsed_scenario1, searchTotal_scenario1]
    show (match parseFloatQ "12.345".data with
      | some q => RunOutcome.ok q (digitsVal ['4', '2'])
      | none => RunOutcome.valueFail) = RunOutcome.ok (2469 / 200) 42
    rw [parseFloatQ_12345]
    rw [show digitsVal ['4', '2'] = 42 from by decide]

theorem c7_parse_success_witness :
    ∃ q tot, runOnceParse 5 6 (String.mk scenario1.data) = RunOutcome.ok q tot := by
  apply c7_parse_success.1 scenario1.data 5 6
  · exact ⟨[], "[sequential] elapsed: 12.345 ms".data, "\ntotal primes: 42".data,
      "12.345".data, by decide, elapsedPat_scenario1⟩
  · exact ⟨"[sequential] elapsed: 12.345 ms\n".data, "total primes: 42".data, [],
      ['4', '2'], by decide, totalPat_scenario1⟩
  · intro g hg
    rw [searchElapsed_scenario1] at hg
    rw [← Option.some.inj hg, parseFloatQ_12345]
    rfl

theorem searchElapsed_cexParse : searchElapsed cexParse.data = some "1.2.3".data := by
  with_unfolding_all decide

theorem searchTotal_cexParse : searchTotal cexParse.data = some ['4'] := by
  have hsplit : cexParse.data =
      "[sequential] elapsed: 1.2.3 ms\n[threaded] elapsed: 2 ms\n".data ++
        "total primes: 4".data := by decide
  unfold searchTotal
  rw [hsplit]
  rw [searchWith_append_skip matchTotalAt _ _ (by decide)]
  apply searchWith_head
  with_unfolding_all decide

theorem parseFloatQ_123 : parseFloatQ "1.2.3".data = none := by
  have hc0 : ¬ ("1.2.3".data.count '.' = 0) := by decide
  have hc1 : ¬ ("1.2.3".data.count '.' = 1) := by decide
  unfold parseFloatQ
  rw [if_neg hc0, if_neg hc1]

/-- C7 counterexample: `cexParse` contains a line matching the claim's
elapsed pattern with the numeral `2`, and a total-primes line, yet the
parser does not succeed and return those values: the leftmost `ELAPSED_RE`
match captures `"1.2.3"`, on which `float()` raises `ValueError`. -/
theorem c7_counterexample :
    cexParse.data = "[sequential] elapsed: 1.2.3 ms\n".data ++
      ("[threaded] elapsed: 2 ms".data ++ "\ntotal primes: 4".data) ∧
    ElapsedPat "[threaded] elapsed: 2 ms".data ['2'] ∧
    cexParse.data = "[sequential] elapsed: 1.2.3 ms\n[threaded] elapsed: 2 ms\n".data ++
      ("total primes: 4".data ++ ([] : List Char)) ∧
    TotalPat "total primes: 4".data ['4'] ∧
    runOnceParse 1 1 cexParse = RunOutcome.valueFail := by
  refine ⟨by decide, ?_, by decide, ?_, ?_⟩
  · exact ⟨"threaded".data, [' '], [' '], [' '], "elapsed:".data, "ms".data,
      Or.inr (by decide), by decide, by decide, by decide, by decide, by decide, by decide,
      Or.inl ⟨by decide, by decide⟩, by decide⟩
  · exact ⟨"total primes:".data, [' '], by decide, by decide, by decide, by decide, by decide⟩
  · unfold runOnceParse
    rw [searchElapsed_cexParse, searchTotal_cexParse]
    show (match parseFloatQ "1.2.3".data with
      | some q => RunOutcome.ok q (digitsVal ['4'])
      | none => RunOutcome.valueFail) = RunOutcome.valueFail
    rw [parseFloatQ_123]

/-- C8: whenever either regex has no match in the captured text, the parse
stage fails on the diagnostic path: the diagnostic file name is determined
solely by the `(size, concurrency)` parameters, and its content is exactly
the raw captured text. -/
theorem c8_parse_failure_diagnostic (n t : ℕ) (s : String)
    (h : searchElapsed s.data = none ∨ searchTotal s.data = none) :
    runOnceParse n t s = RunOutcome.parseFail (debugName n t) s := by
  unfold runOnceParse
  rcases h with h | h
  · rw [h]
  · rw [h]
    cases searchElapsed s.data <;> rfl

theorem c8_parse_failure_diagnostic_witness :
    runOnceParse 3 4 noTotalText = RunOutcome.parseFail (debugName 3 4) noTotalText :=
  c8_parse_failure_diagnostic 3 4 noTotalText
    (Or.inr (searchWith_eq_none matchTotalAt noTotalText.data (by decide)))
